import Mathlib

/-!
# Verification of `src/web3-utils.js` (espresso-org/aragon utils module)

Shallow embedding of the web3 utility functions in Lean 4.

Modelling conventions:
* A JavaScript string is a list of UTF-16 code units, embedded as `List Nat`
  (`jstr` converts a Lean string literal to its code-unit list; all the
  strings involved are within the BMP, so code points and code units agree).
* A JavaScript value that may be a string, `null` or `undefined` is `JSVal`.
* `String.prototype.toLowerCase` / `toUpperCase` are embedded as the ASCII
  simple case mapping (the only case the addresses handled here exercise).
* JavaScript numbers used as counts (`digits`, `charsLength`) are embedded as
  `Nat`; a Wei amount (by the data model a string encoding a non-negative
  integer) is embedded as the `Nat` it denotes.
-/

/-- UTF-16 code units of a string literal. -/
def jstr (s : String) : List Nat := s.data.map Char.toNat

/-- Code of the decimal point character. -/
def dotCode : Nat := 46

/-- Code of the horizontal-ellipsis glyph used by `shortenAddress`. -/
def ellipsisCode : Nat := 8230

/-- ASCII decimal digit code. -/
def isDigitCode (c : Nat) : Bool := 48 ≤ c && c ≤ 57

/-- ASCII simple lower-casing of one code unit (`String.prototype.toLowerCase`
restricted to the ASCII range). -/
def jsLowerChar (c : Nat) : Nat := if 65 ≤ c ∧ c ≤ 90 then c + 32 else c

/-- ASCII simple upper-casing of one code unit (`String.prototype.toUpperCase`
restricted to the ASCII range). -/
def jsUpperChar (c : Nat) : Nat := if 97 ≤ c ∧ c ≤ 122 then c - 32 else c

/-- `s.toLowerCase()`. -/
def jsToLowerCase (s : List Nat) : List Nat := s.map jsLowerChar

/-- `s.toUpperCase()`. -/
def jsToUpperCase (s : List Nat) : List Nat := s.map jsUpperChar

/-- A JavaScript value flowing through the address utilities: a string,
`null`, or `undefined`. -/
inductive JSVal where
  | null : JSVal
  | undefined : JSVal
  | str : List Nat → JSVal
deriving DecidableEq, Repr

/-- JavaScript falsiness for `JSVal` (`null`, `undefined` and the empty
string are falsy; every other string is truthy). -/
def JSVal.falsy : JSVal → Bool
  | .null => true
  | .undefined => true
  | .str s => s.isEmpty

/-- The value of `v && v.toLowerCase()`: a falsy value is passed through
unchanged, a truthy string is lower-cased. -/
def lowerIfTruthy (v : JSVal) : JSVal :=
  match v with
  | .str s => if s.isEmpty then .str s else .str (jsToLowerCase s)
  | w => w

/-- `addressesEqual(first, second)` from `web3-utils.js`:
`first = first && first.toLowerCase(); second = second && second.toLowerCase();
return first === second`. -/
def addressesEqual (first second : JSVal) : Bool :=
  lowerIfTruthy first == lowerIfTruthy second

example : jstr "ab" = [97, 98] := by decide
example : jstr "0x…" = [48, 120, 8230] := by decide
example : addressesEqual (.str (jstr "0xAb")) (.str (jstr "0xaB")) = true := by decide
example : addressesEqual .null (.str []) = false := by decide

/-- Base-10 digit string of a natural number, accumulator/fuel style
(`fuel` bounds the recursion depth; `natDigits` supplies enough). -/
def natDigitsAux : Nat → Nat → List Nat → List Nat
  | 0, _, acc => acc
  | fuel + 1, n, acc =>
    if n < 10 then (48 + n % 10) :: acc
    else natDigitsAux fuel (n / 10) ((48 + n % 10) :: acc)

/-- The decimal representation of a natural number as a code-unit list
(what `String(n)` / `BN.toString(10)` produce for a non-negative integer). -/
def natDigits (n : Nat) : List Nat := natDigitsAux (n + 1) n []

/-- Left-pad a digit string with ASCII zeros to length `len`. -/
def padZeros (len : Nat) (s : List Nat) : List Nat :=
  List.replicate (len - s.length) 48 ++ s

/-- Remove trailing ASCII zeros (`fraction.match(/^([0-9]*[1-9]|0)(0*)/)[1]`
style stripping used by the external converter). -/
def dropTrailingZeros (s : List Nat) : List Nat :=
  (s.reverse.dropWhile (· == 48)).reverse

/-- Modelled from the spec: the external conversion routine
`Web3.utils.fromWei` is not part of this repository; spec §4.2 step 1 and §6
describe it as exact decimal scaling by the unit's power of ten, producing a
decimal string.  `decimals` is the unit's power of ten (18 for `ether`); the
fractional part is left-padded to `decimals` digits, its trailing zeros are
stripped, and it is omitted altogether (along with the decimal point) when the
value is an exact multiple of the base. -/
def fromWei (wei : Nat) (decimals : Nat) : List Nat :=
  let base := 10 ^ decimals
  let whole := wei / base
  let frac := wei % base
  if frac = 0 then natDigits whole
  else natDigits whole ++ dotCode :: dropTrailingZeros (padZeros decimals (natDigits frac))

/-- `s.indexOf(c)` : index of the first occurrence, `none` standing for
JavaScript's `-1`. -/
def indexOfCode (s : List Nat) (c : Nat) : Option Nat := s.findIdx? (· == c)

/-- `Math.round` on the two-digit decimal `d1.d2` (both arguments are digit
values `0..9`): round half away from zero, here half up since inputs are
non-negative. -/
def mathRoundDigits (d1 d2 : Nat) : Nat := (10 * d1 + d2 + 5) / 10

/-- `String(Math.round(s))` for the three-character strings `fromWeiRounded`
builds: `"d1.d2"` with two ASCII digits parses to the number `d1.d2` and is
rounded; any other shape reaching this point (the code can also build
`".."` followed by a digit) is not a numeric string, `ToNumber` yields `NaN`,
and `String(NaN)` is the three letters `"NaN"`. -/
def jsRoundString (s : List Nat) : List Nat :=
  match s with
  | [c1, c, c2] =>
    if c = dotCode ∧ isDigitCode c1 ∧ isDigitCode c2 then
      natDigits (mathRoundDigits (c1 - 48) (c2 - 48))
    else jstr "NaN"
  | _ => jstr "NaN"

/-- `fromWeiRounded(wei, digits, unit)` from `web3-utils.js`, for
`unit = 'ether'`: convert with `fromWei`, and when the result contains a
decimal point, truncate it to `decimalIndex + digits + 2` characters
(`substring`), form the two-character string
`unitValue[length-2] + '.' + unitValue[length-1]`, round it with `Math.round`,
and concatenate the rounded value in place of the last two characters. -/
def fromWeiRounded (wei : Nat) (digits : Nat := 2) : List Nat :=
  let unitValue := fromWei wei 18
  match indexOfCode unitValue dotCode with
  | none => unitValue
  | some decimalIndex =>
    let t := unitValue.take (decimalIndex + digits + 2)
    let roundedLastDigit := [t.getD (t.length - 2) 0, dotCode, t.getD (t.length - 1) 0]
    t.take (t.length - 2) ++ jsRoundString roundedLastDigit

example : fromWei 1230000000000000000 18 = jstr "1.23" := by decide
example : fromWei 1000000000000000000 18 = jstr "1" := by decide
example : fromWei 996000000000000000 18 = jstr "0.996" := by decide
example : fromWei 100000000000000000 18 = jstr "0.1" := by decide
example : fromWeiRounded 1230000000000000000 2 = jstr "1.2" := by decide
example : fromWeiRounded 1234500000000000000 2 = jstr "1.23" := by decide
example : fromWeiRounded 1235500000000000000 2 = jstr "1.24" := by decide
example : fromWeiRounded 996000000000000000 2 = jstr "0.910" := by decide
example : fromWeiRounded 100000000000000000 2 = jstr "0NaN" := by decide
example : fromWeiRounded 1000000000000000000 2 = jstr "1" := by decide

/-- `s.slice(-n)` for a non-negative count `n`: the last `n` characters —
except that for `n = 0` JavaScript evaluates `s.slice(-0)` with start index
`+0` and returns the whole string. -/
def jsSliceNeg (s : List Nat) (n : Nat) : List Nat :=
  if n = 0 then s else s.drop (s.length - n)

/-- `shortenAddress(address, charsLength)` from `web3-utils.js`: empty string
for a falsy address; the address unchanged when its length is below
`charsLength * 2 + 2` (2 being the `"0x"` prefixLength); otherwise
`address.slice(0, charsLength + 2) + '…' + address.slice(-charsLength)`. -/
def shortenAddress (address : JSVal) (charsLength : Nat := 4) : List Nat :=
  match address with
  | .null => []
  | .undefined => []
  | .str s =>
    if s.isEmpty then []
    else if s.length < charsLength * 2 + 2 then s
    else s.take (charsLength + 2) ++ ellipsisCode :: jsSliceNeg s charsLength

example : shortenAddress (.str (jstr "0x19731977931271")) 4 = jstr "0x1973…1271" := by decide
example : shortenAddress (.str (jstr "0x19731977931271")) 2 = jstr "0x19…71" := by decide
example : shortenAddress (.str (jstr "0x197319")) 4 = jstr "0x197319" := by decide
example : shortenAddress (.str (jstr "0x19")) 0 = jstr "0x…0x19" := by decide
example : shortenAddress (.str (jstr "0x")) 0 = jstr "0x…0x" := by decide

/-- The `ANY_ADDRESS` sentinel constant. -/
def ANY_ADDRESS : List Nat := jstr "0xFFfFfFffFFfffFFfFFfFFFFFffFFFffffFfFFFfF"

/-- The `EMPTY_ADDRESS` sentinel constant. -/
def EMPTY_ADDRESS : List Nat := jstr "0x0000000000000000000000000000000000000000"

/-- `isAnyAddress(address)`: `address === ANY_ADDRESS`. -/
def isAnyAddress (address : JSVal) : Bool := address == .str ANY_ADDRESS

/-- `isEmptyAddress(address)`: `address === EMPTY_ADDRESS`. -/
def isEmptyAddress (address : JSVal) : Bool := address == .str EMPTY_ADDRESS

/-- `getAnyAddress()`. -/
def getAnyAddress : List Nat := ANY_ADDRESS

/-- `getEmptyAddress()`. -/
def getEmptyAddress : List Nat := EMPTY_ADDRESS

/-!
## The client cache

`getWeb3` keeps a `WeakMap` from provider objects to `Web3` instances.  The
`WeakMap` is keyed by object identity, so a provider object is embedded as an
identity token (a `Nat`); a constructed `Web3` instance is likewise an
identity token, and the constructor `new Web3(provider)` is modelled as
handing out a token never handed out before (`nextId`).  Two provider objects
with identical field values but distinct identities are two distinct tokens.
-/

/-- The mutable state surrounding `getWeb3`: the `cache` association list
(provider identity ↦ instance identity) and the supply of fresh instance
identities. -/
structure Web3State where
  cache : List (Nat × Nat)
  nextId : Nat
deriving DecidableEq, Repr

/-- `cache.has(p)` / `cache.get(p)` combined: identity lookup. -/
def cacheLookup (cache : List (Nat × Nat)) (provider : Nat) : Option Nat :=
  match cache.find? (fun e => e.1 == provider) with
  | some e => some e.2
  | none => none

/-- `getWeb3(provider)`: return the cached instance when the provider is a
known key, otherwise construct a fresh instance, cache it under the provider's
identity and return it.  The returned pair is (instance, state after the
call). -/
def getWeb3 (provider : Nat) (st : Web3State) : Nat × Web3State :=
  match cacheLookup st.cache provider with
  | some w => (w, st)
  | none => (st.nextId, ⟨(provider, st.nextId) :: st.cache, st.nextId + 1⟩)

/-- Well-formedness of the cache state: every cached instance token was
handed out by the constructor supply (is below `nextId`), and distinct
provider identities hold distinct instances.  The initial state
`⟨[], 0⟩` is well formed and `getWeb3` preserves well-formedness. -/
def Web3State.wf (st : Web3State) : Bool :=
  st.cache.all (fun e => e.2 < st.nextId) &&
  st.cache.all (fun a => st.cache.all (fun b => a.1 == b.1 || a.2 != b.2))

example : (getWeb3 7 ⟨[], 0⟩).1 = 0 := by decide
example : (getWeb3 7 (getWeb3 7 ⟨[], 0⟩).2).1 = 0 := by decide
example : (getWeb3 8 (getWeb3 7 ⟨[], 0⟩).2).1 = 1 := by decide

/-! ## Helper lemmas -/

theorem jsLowerChar_jsUpperChar (c : Nat) : jsLowerChar (jsUpperChar c) = jsLowerChar c := by
  simp only [jsLowerChar, jsUpperChar]
  split_ifs <;> omega

theorem jsToLowerCase_jsToUpperCase (s : List Nat) :
    jsToLowerCase (jsToUpperCase s) = jsToLowerCase s := by
  simp [jsToLowerCase, jsToUpperCase, List.map_map, Function.comp_def, jsLowerChar_jsUpperChar]

theorem mem_natDigitsAux {fuel n : Nat} {acc : List Nat} {c : Nat}
    (h : c ∈ natDigitsAux fuel n acc) : (48 ≤ c ∧ c ≤ 57) ∨ c ∈ acc := by
  induction fuel generalizing n acc with
  | zero => exact Or.inr h
  | succ fuel ih =>
    rw [natDigitsAux] at h
    split at h
    · rcases List.mem_cons.mp h with h | h
      · subst h; left; constructor <;> omega
      · exact Or.inr h
    · rcases ih h with h | h
      · exact Or.inl h
      · rcases List.mem_cons.mp h with h | h
        · subst h; left; constructor <;> omega
        · exact Or.inr h

theorem dotCode_not_mem_natDigits (n : Nat) : dotCode ∉ natDigits n := by
  intro h
  rcases mem_natDigitsAux h with h | h
  · simp [dotCode] at h
  · simp at h

/-! ## C6: case-insensitivity of `addressesEqual` -/

/-- C6: for every string `a`, `addressesEqual(a, a.toUpperCase())` is true:
`addressesEqual` is a case-insensitive comparison identifying any string with
its upper-cased form. -/
theorem addressesEqual_toUpperCase (s : List Nat) :
    addressesEqual (.str s) (.str (jsToUpperCase s)) = true := by
  have hlow : ∀ t : List Nat, lowerIfTruthy (.str t) = .str (jsToLowerCase t) := by
    intro t; rcases t with _ | ⟨a, t⟩ <;> simp [lowerIfTruthy, jsToLowerCase]
  simp [addressesEqual, hlow, jsToLowerCase_jsToUpperCase]

/-! ## C7: falsy handling of `addressesEqual` -/

/-- C7: `addressesEqual` passes falsy inputs through unchanged before
comparing: `addressesEqual(null, null)` is true, `addressesEqual(null, "")`
is false, and two falsy inputs are equal exactly when they are the same
falsy value. -/
theorem addressesEqual_falsy :
    addressesEqual .null .null = true ∧
    addressesEqual .null (.str []) = false ∧
    ∀ a b : JSVal, a.falsy = true → b.falsy = true →
      (addressesEqual a b = true ↔ a = b) := by
  refine ⟨by decide, by decide, ?_⟩
  intro a b ha hb
  rcases a with _ | _ | s <;> rcases b with _ | _ | t <;>
    simp_all [JSVal.falsy, addressesEqual, lowerIfTruthy, List.isEmpty_iff]

/-- Witness for C7 at a concrete falsy pair. -/
theorem addressesEqual_falsy_witness :
    addressesEqual .undefined .undefined = true ↔ JSVal.undefined = JSVal.undefined :=
  addressesEqual_falsy.2.2 .undefined .undefined (by decide) (by decide)

/-! ## C8: sentinel-address checks -/

/-- C8: `isAnyAddress` (resp. `isEmptyAddress`) holds exactly on the canonical
`ANY_ADDRESS` (resp. `EMPTY_ADDRESS`) string returned by `getAnyAddress`
(resp. `getEmptyAddress`), by exact case-sensitive equality; in particular
`isAnyAddress(getAnyAddress())` is true, `isAnyAddress(getEmptyAddress())` is
false, and the upper-cased `ANY_ADDRESS` string is not accepted. -/
theorem isAnyAddress_isEmptyAddress_exact :
    (∀ a : JSVal, isAnyAddress a = true ↔ a = .str getAnyAddress) ∧
    (∀ a : JSVal, isEmptyAddress a = true ↔ a = .str getEmptyAddress) ∧
    isAnyAddress (.str getAnyAddress) = true ∧
    isEmptyAddress (.str getEmptyAddress) = true ∧
    isAnyAddress (.str getEmptyAddress) = false ∧
    isAnyAddress (.str (jsToUpperCase getAnyAddress)) = false := by
  refine ⟨?_, ?_, by decide, by decide, by decide, by decide⟩
  · intro a; simp [isAnyAddress, getAnyAddress]
  · intro a; simp [isEmptyAddress, getEmptyAddress]

/-- Witness for C8, instantiating the equivalences at concrete inputs. -/
theorem isAnyAddress_isEmptyAddress_exact_witness :
    isAnyAddress (.str getAnyAddress) = true ∧ isEmptyAddress (.str getEmptyAddress) = true :=
  ⟨(isAnyAddress_isEmptyAddress_exact.1 (.str getAnyAddress)).mpr rfl,
   (isAnyAddress_isEmptyAddress_exact.2.1 (.str getEmptyAddress)).mpr rfl⟩

/-! ## C1: the `"1.23"` example

`fromWei` yields `"1.23"`, whose fractional part has exactly `digits`
characters; the truncation is then a no-op and the manual rounding step
consumes the last kept digit, so the function returns `"1.2"`, not the
documented `"1.23"`. -/

/-- C1: evaluating the code at the claimed example input: the conversion
yields `"1.23"`, but `fromWeiRounded` returns `"1.2"`, not `"1.23"`. -/
theorem fromWeiRounded_c1_example_evaluates :
    fromWei 1230000000000000000 18 = jstr "1.23" ∧
    fromWeiRounded 1230000000000000000 2 = jstr "1.2" ∧
    fromWeiRounded 1230000000000000000 2 ≠ jstr "1.23" := by decide

/-! ## C2: manual two-character rounding -/

/-- C2: the manual rounding step rounds the two-character decimal
`d1.d2` to the nearest integer, half up, and concatenates its decimal
representation in place of the last two characters with no carry into the
preceding digits: in particular `9.6` contributes the two-character string
`"10"`, and wei `"996000000000000000"` with `digits = 2` yields `"0.910"`. -/
theorem fromWeiRounded_manual_rounding :
    (∀ d1 d2 : Nat, d1 ≤ 9 → d2 ≤ 9 →
      jsRoundString [48 + d1, dotCode, 48 + d2] =
        natDigits (if d2 < 5 then d1 else d1 + 1)) ∧
    jsRoundString [57, dotCode, 54] = jstr "10" ∧
    fromWeiRounded 996000000000000000 2 = jstr "0.910" := by
  refine ⟨?_, by decide, by decide⟩
  intro d1 d2 h1 h2
  have hd1 : isDigitCode (48 + d1) = true := by simp [isDigitCode]; omega
  have hd2 : isDigitCode (48 + d2) = true := by simp [isDigitCode]; omega
  simp only [jsRoundString]
  rw [if_pos ⟨trivial, hd1, hd2⟩]
  congr 1
  simp only [mathRoundDigits, Nat.add_sub_cancel_left]
  split_ifs <;> omega

/-- Witness for C2 at the carrying instance `9.6` together with the
concrete wei example. -/
theorem fromWeiRounded_manual_rounding_witness :
    jsRoundString [48 + 9, dotCode, 48 + 6] = natDigits (if 6 < 5 then 9 else 9 + 1) ∧
    fromWeiRounded 996000000000000000 2 = jstr "0.910" :=
  ⟨fromWeiRounded_manual_rounding.1 9 6 (by decide) (by decide),
   fromWeiRounded_manual_rounding.2.2⟩

/-! ## C3: integral conversions are returned unchanged -/

theorem indexOfCode_natDigits_dot (n : Nat) : indexOfCode (natDigits n) dotCode = none := by
  rw [indexOfCode, List.findIdx?_eq_none_iff]
  intro x hx
  simp only [beq_eq_false_iff_ne, ne_eq]
  intro h
  exact dotCode_not_mem_natDigits n (h ▸ hx)

/-- C3: whenever the converted decimal string contains no decimal point,
`fromWeiRounded` returns it unchanged, whatever `digits` is; the conversion
of an exact multiple of `10^18` contains no decimal point, and the concrete
example returns `"1"` with no trailing `".00"`. -/
theorem fromWeiRounded_no_fraction_unchanged :
    (∀ wei digits : Nat, indexOfCode (fromWei wei 18) dotCode = none →
      fromWeiRounded wei digits = fromWei wei 18) ∧
    (∀ wei : Nat, wei % 10 ^ 18 = 0 → indexOfCode (fromWei wei 18) dotCode = none) ∧
    fromWeiRounded 1000000000000000000 2 = jstr "1" := by
  refine ⟨?_, ?_, by decide⟩
  · intro wei digits h
    simp only [fromWeiRounded, h]
  · intro wei h
    have hw : fromWei wei 18 = natDigits (wei / 10 ^ 18) := by
      simp only [fromWei]
      rw [if_pos h]
    rw [hw]
    exact indexOfCode_natDigits_dot _

/-- Witness for C3 at concrete integral wei values. -/
theorem fromWeiRounded_no_fraction_unchanged_witness :
    fromWeiRounded 2000000000000000000 5 = fromWei 2000000000000000000 18 ∧
    indexOfCode (fromWei 3000000000000000000 18) dotCode = none :=
  ⟨fromWeiRounded_no_fraction_unchanged.1 2000000000000000000 5 (by decide),
   fromWeiRounded_no_fraction_unchanged.2.1 3000000000000000000 (by decide)⟩

/-! ## C4: single-fraction-digit inputs produce `"NaN"` -/

/-- C4: when the converted string has exactly one fractional digit, the
second-to-last character of the truncated string is the decimal point itself,
`Math.round` receives a malformed string and yields `NaN`, and
`fromWeiRounded` returns the integer part with `"NaN"` appended — e.g.
`"0NaN"` for wei `"100000000000000000"` with the default `digits = 2`. -/
theorem fromWeiRounded_single_fraction_digit_nan :
    (∀ (wei digits d : Nat) (pre : List Nat),
      dotCode ∉ pre → isDigitCode d = true →
      fromWei wei 18 = pre ++ [dotCode, d] →
      fromWeiRounded wei digits = pre ++ jstr "NaN") ∧
    fromWeiRounded 100000000000000000 2 = jstr "0NaN" := by
  refine ⟨?_, by decide⟩
  intro wei digits d pre hpre hd hfw
  have hidx : indexOfCode (pre ++ [dotCode, d]) dotCode = some pre.length := by
    have hnone : pre.findIdx? (· == dotCode) = none := by
      rw [List.findIdx?_eq_none_iff]
      intro x hx
      simp only [beq_eq_false_iff_ne, ne_eq]
      intro h
      exact hpre (h ▸ hx)
    simp [indexOfCode, List.findIdx?_append, hnone]
  have htake : (pre ++ [dotCode, d]).take (pre.length + digits + 2) = pre ++ [dotCode, d] :=
    List.take_of_length_le (by simp)
  have hlen : (pre ++ [dotCode, d]).length = pre.length + 2 := by simp
  have hg1 : (pre ++ [dotCode, d]).getD (pre.length + 2 - 2) 0 = dotCode := by
    have h2 : pre.length + 2 - 2 = pre.length := by omega
    rw [h2, List.getD_eq_getElem?_getD, List.getElem?_append_right (Nat.le_refl _)]
    simp
  have hg2 : (pre ++ [dotCode, d]).getD (pre.length + 2 - 1) 0 = d := by
    have h2 : pre.length + 2 - 1 = pre.length + 1 := by omega
    rw [h2, List.getD_eq_getElem?_getD, List.getElem?_append_right (by omega)]
    have h3 : pre.length + 1 - pre.length = 1 := by omega
    rw [h3]
    simp
  have hro : jsRoundString [dotCode, dotCode, d] = jstr "NaN" := by
    simp [jsRoundString, isDigitCode, dotCode]
  simp only [fromWeiRounded, hfw, hidx]
  rw [htake, hlen, hg1, hg2, hro]
  have h4 : pre.length + 2 - 2 = pre.length := by omega
  rw [h4, List.take_left]

/-- Witness for C4 at wei `100000000000000000` (one fractional digit). -/
theorem fromWeiRounded_single_fraction_digit_nan_witness :
    fromWeiRounded 100000000000000000 2 = jstr "0" ++ jstr "NaN" :=
  fromWeiRounded_single_fraction_digit_nan.1 100000000000000000 2 49 (jstr "0")
    (by decide) (by decide) (by decide)

/-! ## C5 and C10: `shortenAddress` -/

/-- Shape and length of `shortenAddress` on an address at or above the
length threshold, for a positive `charsLength` (so that `slice(-n)` really
takes the last `n` characters). -/
theorem shortenAddress_long_shape (s : List Nat) (n : Nat) (hn : 1 ≤ n)
    (hs : s.isEmpty = false) (hl : n * 2 + 2 ≤ s.length) :
    shortenAddress (.str s) n = s.take (n + 2) ++ ellipsisCode :: s.drop (s.length - n) ∧
    (shortenAddress (.str s) n).length = n * 2 + 3 := by
  have hlt : ¬s.length < n * 2 + 2 := by omega
  have hn0 : n ≠ 0 := by omega
  have hmain : shortenAddress (.str s) n =
      s.take (n + 2) ++ ellipsisCode :: s.drop (s.length - n) := by
    simp [shortenAddress, hs, hlt, jsSliceNeg, hn0]
  refine ⟨hmain, ?_⟩
  rw [hmain]
  simp only [List.length_append, List.length_take, List.length_cons, List.length_drop]
  omega

/-- C5, counterexample at `charsLength = 0`: the address `"0x19"` is not
shorter than `0 * 2 + 2`, yet the result is not the claimed
first-2-characters/ellipsis/last-0-characters string of length `0 * 2 + 3`:
JavaScript's `slice(-0)` returns the whole string, so the code returns
`"0x…0x19"`. -/
theorem shortenAddress_charsLength_zero_counterexample :
    ¬(jstr "0x19").length < 0 * 2 + 2 ∧
    shortenAddress (.str (jstr "0x19")) 0 = jstr "0x…0x19" ∧
    (shortenAddress (.str (jstr "0x19")) 0).length ≠ 0 * 2 + 3 := by decide

/-- C5 (amended to `charsLength ≥ 1`; for `charsLength = 0` the final
`slice(-0)` returns the whole string instead of the last 0 characters):
`shortenAddress` returns the empty string on every falsy address, returns any
short-enough address unchanged, and otherwise returns the first
`charsLength + 2` characters, one ellipsis, and the last `charsLength`
characters — total length `charsLength * 2 + 3`. -/
theorem shortenAddress_cases_amended :
    (∀ v : JSVal, v.falsy = true → ∀ n : Nat, shortenAddress v n = []) ∧
    (∀ (s : List Nat) (n : Nat), s.isEmpty = false → s.length < n * 2 + 2 →
      shortenAddress (.str s) n = s) ∧
    (∀ (s : List Nat) (n : Nat), 1 ≤ n → s.isEmpty = false → n * 2 + 2 ≤ s.length →
      shortenAddress (.str s) n =
        s.take (n + 2) ++ ellipsisCode :: s.drop (s.length - n) ∧
      (shortenAddress (.str s) n).length = n * 2 + 3) ∧
    shortenAddress (.str (jstr "0x19731977931271")) 4 = jstr "0x1973…1271" := by
  refine ⟨?_, ?_, fun s n hn hs hl => shortenAddress_long_shape s n hn hs hl, by decide⟩
  · intro v hv n
    rcases v with _ | _ | s
    · rfl
    · rfl
    · simp only [JSVal.falsy] at hv
      simp [shortenAddress, hv]
  · intro s n hs hl
    simp [shortenAddress, hs, hl]

/-- Witness for C5 (amended), exercising all three branches concretely. -/
theorem shortenAddress_cases_amended_witness :
    shortenAddress .null 4 = [] ∧
    shortenAddress (.str (jstr "0x1")) 4 = jstr "0x1" ∧
    (shortenAddress (.str (jstr "0xab")) 1).length = 1 * 2 + 3 :=
  ⟨shortenAddress_cases_amended.1 .null (by decide) 4,
   shortenAddress_cases_amended.2.1 (jstr "0x1") 4 (by decide) (by decide),
   (shortenAddress_cases_amended.2.2.1 (jstr "0xab") 1 (by decide) (by decide) (by decide)).2⟩

/-- C10, counterexample at `charsLength = 0`: `"0x"` has length exactly
`0 * 2 + 2`, but the result `"0x…0x"` has length 5, not `0 * 2 + 3`. -/
theorem shortenAddress_threshold_counterexample :
    (jstr "0x").length = 0 * 2 + 2 ∧
    shortenAddress (.str (jstr "0x")) 0 = jstr "0x…0x" ∧
    (shortenAddress (.str (jstr "0x")) 0).length ≠ 0 * 2 + 3 := by decide

/-- C10 (amended to `charsLength ≥ 1`; at `charsLength = 0` the result of
`slice(-0)` makes the output three characters longer than the input): on a
non-falsy address of length exactly `charsLength * 2 + 2`, `shortenAddress`
returns a string of length `charsLength * 2 + 3` — one character longer than
its input. -/
theorem shortenAddress_threshold_lengthens_amended :
    ∀ (s : List Nat) (n : Nat), 1 ≤ n → s.isEmpty = false → s.length = n * 2 + 2 →
      (shortenAddress (.str s) n).length = n * 2 + 3 ∧
      (shortenAddress (.str s) n).length = s.length + 1 := by
  intro s n hn hs hl
  have h := (shortenAddress_long_shape s n hn hs (by omega)).2
  exact ⟨h, by omega⟩

/-- Witness for C10 (amended) at a 6-character address with
`charsLength = 2`. -/
theorem shortenAddress_threshold_lengthens_amended_witness :
    (shortenAddress (.str (jstr "0x1973")) 2).length = 2 * 2 + 3 ∧
    (shortenAddress (.str (jstr "0x1973")) 2).length = (jstr "0x1973").length + 1 :=
  shortenAddress_threshold_lengthens_amended (jstr "0x1973") 2 (by decide) (by decide) (by decide)

/-! ## C9: the `getWeb3` cache -/

theorem cacheLookup_mem {c : List (Nat × Nat)} {p w : Nat}
    (h : cacheLookup c p = some w) : (p, w) ∈ c := by
  unfold cacheLookup at h
  cases hf : c.find? (fun e => e.1 == p) with
  | none => rw [hf] at h; cases h
  | some e =>
    rw [hf] at h
    rcases e with ⟨a, b⟩
    have hm := List.mem_of_find?_eq_some hf
    have hp : a = p := by simpa using List.find?_some hf
    have hw : b = w := by simpa using h
    rw [← hp, ← hw]
    exact hm

theorem wf_bound {st : Web3State} (h : st.wf = true) :
    ∀ e ∈ st.cache, e.2 < st.nextId := by
  have := (Bool.and_eq_true _ _).mp h
  intro e he
  have h1 := this.1
  rw [List.all_eq_true] at h1
  simpa using h1 e he

theorem wf_inj {st : Web3State} (h : st.wf = true) :
    ∀ a ∈ st.cache, ∀ b ∈ st.cache, a.1 ≠ b.1 → a.2 ≠ b.2 := by
  have := (Bool.and_eq_true _ _).mp h
  intro a ha b hb hne
  have h2 := this.2
  rw [List.all_eq_true] at h2
  have h3 := h2 a ha
  rw [List.all_eq_true] at h3
  have h4 := h3 b hb
  simp only [Bool.or_eq_true, beq_iff_eq, bne_iff_ne, ne_eq] at h4
  rcases h4 with h4 | h4
  · exact absurd h4 hne
  · exact h4

/-- C9: on a well-formed cache state, calling `getWeb3` twice with the same
provider identity returns the identical cached instance and constructs
nothing new (the state is unchanged by the second call), while two distinct
provider identities — which is all that distinguishes two provider objects
with identical field values under the identity-keyed `WeakMap` — yield two
distinct instances. -/
theorem getWeb3_cache_spec :
    ∀ (st : Web3State) (p : Nat), st.wf = true →
      (getWeb3 p (getWeb3 p st).2).1 = (getWeb3 p st).1 ∧
      (getWeb3 p (getWeb3 p st).2).2 = (getWeb3 p st).2 ∧
      ∀ q : Nat, p ≠ q → (getWeb3 q (getWeb3 p st).2).1 ≠ (getWeb3 p st).1 := by
  intro st p hwf
  have hbound := wf_bound hwf
  have hinj := wf_inj hwf
  cases hp : cacheLookup st.cache p with
  | some w =>
    have h1 : getWeb3 p st = (w, st) := by simp [getWeb3, hp]
    rw [h1]
    refine ⟨by simp [getWeb3, hp], by simp [getWeb3, hp], ?_⟩
    intro q hq
    show (getWeb3 q st).1 ≠ w
    cases hq' : cacheLookup st.cache q with
    | some w' =>
      have h2 : (getWeb3 q st).1 = w' := by simp [getWeb3, hq']
      rw [h2]
      have h3 := hinj _ (cacheLookup_mem hq') _ (cacheLookup_mem hp)
        (by simpa using Ne.symm hq)
      simpa using h3
    | none =>
      have h2 : (getWeb3 q st).1 = st.nextId := by simp [getWeb3, hq']
      rw [h2]
      have h3 := hbound _ (cacheLookup_mem hp)
      exact fun hcontra => absurd (hcontra ▸ h3) (lt_irrefl _)
  | none =>
    have h1 : getWeb3 p st = (st.nextId, ⟨(p, st.nextId) :: st.cache, st.nextId + 1⟩) := by
      simp [getWeb3, hp]
    have hlook2 : cacheLookup ((p, st.nextId) :: st.cache) p = some st.nextId := by
      unfold cacheLookup
      rw [List.find?_cons_of_pos _ (by simp)]
    rw [h1]
    refine ⟨by simp [getWeb3, hlook2], by simp [getWeb3, hlook2], ?_⟩
    intro q hq
    have hq1 : cacheLookup ((p, st.nextId) :: st.cache) q = cacheLookup st.cache q := by
      unfold cacheLookup
      rw [List.find?_cons_of_neg _ (by simpa using hq)]
    cases hq' : cacheLookup st.cache q with
    | some w' =>
      have h2 : (getWeb3 q (⟨(p, st.nextId) :: st.cache, st.nextId + 1⟩ : Web3State)).1 = w' := by
        simp [getWeb3, hq1, hq']
      rw [h2]
      have h3 := hbound _ (cacheLookup_mem hq')
      exact Nat.ne_of_lt h3
    | none =>
      have h2 : (getWeb3 q (⟨(p, st.nextId) :: st.cache, st.nextId + 1⟩ : Web3State)).1 =
          st.nextId + 1 := by
        simp [getWeb3, hq1, hq']
      rw [h2]
      omega

/-- Witness for C9: the empty well-formed state, provider identities 0
and 1. -/
theorem getWeb3_cache_spec_witness :
    (getWeb3 0 (getWeb3 0 ⟨[], 0⟩).2).1 = (getWeb3 0 ⟨[], 0⟩).1 ∧
    (getWeb3 0 (getWeb3 0 ⟨[], 0⟩).2).2 = (getWeb3 0 ⟨[], 0⟩).2 ∧
    (getWeb3 1 (getWeb3 0 ⟨[], 0⟩).2).1 ≠ (getWeb3 0 ⟨[], 0⟩).1 := by
  have h := getWeb3_cache_spec ⟨[], 0⟩ 0 (by decide)
  exact ⟨h.1, h.2.1, h.2.2 1 (by decide)⟩
